import Mathlib

/-!
Verification model of the rate synchronization and resolution engine of
`valutatrade_hub` (parser_service/storage.py, parser_service/updater.py,
core/usecases.py, core/currencies.py).

Embedding conventions:
* Python `dict`s are association lists (`List (String × α)`) with Python's
  semantics: `dictGet` returns the first binding, `dictSet` replaces the
  binding in place (preserving insertion order) or appends a new one.
* `datetime` values are modelled by `Dt`: an awareness flag (offset-aware vs
  naive) together with a time coordinate in `ℕ` (an order-isomorphic copy of
  the datetime axis with `datetime.min ↦ 0`).  Comparing a naive and an
  aware datetime raises `TypeError` in Python; `dtGe` returns `Except` to
  model this.
* `datetime.fromisoformat` is not re-implemented; definitions are
  parametrised by an abstract parse function (`none` = `ValueError`).  The
  storage-side parameter stands for the composite
  `s ↦ datetime.fromisoformat(s.replace("Z", "+00:00"))` used by
  `storage._is_newer`; the resolver-side parameter stands for the bare
  `datetime.fromisoformat` used by `get_rate._is_fresh`.
* `float` rates are modelled by `ℚ`.
* Fallible Python code (uncaught exceptions) returns `Except Unit`.
-/

namespace VTH

/-- A Python `datetime` value: offset-awareness plus a time coordinate.
`t` ranges over `ℕ` so that `datetime.min` (the least datetime) is `0`. -/
structure Dt where
  aware : Bool
  t : ℕ
deriving DecidableEq, Repr

/-- `datetime.min`: naive, minimal. -/
def dtMin : Dt := ⟨false, 0⟩

/-- Python `d1 >= d2` on datetimes: raises `TypeError` when one side is
naive and the other aware, otherwise compares the time coordinates. -/
def dtGe (d1 d2 : Dt) : Except Unit Bool :=
  if d1.aware = d2.aware then .ok (decide (d2.t ≤ d1.t)) else .error ()

/-- `d.get(key)` on an association list modelling a Python dict. -/
def dictGet {α : Type} : List (String × α) → String → Option α
  | [], _ => none
  | (k, v) :: rest, key => if k = key then some v else dictGet rest key

/-- `d[key] = val` on an association list modelling a Python dict:
replace in place, else append (Python dicts preserve insertion order). -/
def dictSet {α : Type} : List (String × α) → String → α → List (String × α)
  | [], key, val => [(key, val)]
  | (k, v) :: rest, key, val =>
      if k = key then (k, val) :: rest else (k, v) :: dictSet rest key val

/-- `d.update(other)`: successive `d[k] = v` for each binding of `other`. -/
def dictUpdate {α : Type} (m other : List (String × α)) : List (String × α) :=
  other.foldl (fun acc p => dictSet acc p.1 p.2) m

/-- The keys of a dict, in order. -/
def dictKeys {α : Type} (m : List (String × α)) : List String := m.map Prod.fst

theorem dictGet_dictSet_self {α : Type} (m : List (String × α)) (k : String) (v : α) :
    dictGet (dictSet m k v) k = some v := by
  induction m with
  | nil => simp [dictSet, dictGet]
  | cons p rest ih =>
      obtain ⟨k', v'⟩ := p
      by_cases h : k' = k
      · simp [dictSet, dictGet, h]
      · simp [dictSet, dictGet, h, ih]

theorem dictGet_dictSet_ne {α : Type} (m : List (String × α)) (k k' : String) (v : α)
    (h : k' ≠ k) : dictGet (dictSet m k v) k' = dictGet m k' := by
  induction m with
  | nil => simp [dictSet, dictGet, Ne.symm h]
  | cons p rest ih =>
      obtain ⟨k₀, v₀⟩ := p
      by_cases h0 : k₀ = k
      · subst h0
        simp [dictSet, dictGet, Ne.symm h]
      · simp [dictSet, dictGet, h0, ih]

theorem dictGet_isSome_iff_mem_keys {α : Type} (m : List (String × α)) (a : String) :
    (dictGet m a).isSome ↔ a ∈ dictKeys m := by
  induction m with
  | nil => simp [dictGet, dictKeys]
  | cons p rest ih =>
      obtain ⟨k₀, v₀⟩ := p
      by_cases h0 : k₀ = a
      · subst h0
        simp [dictGet, dictKeys]
      · simp only [dictGet, dictKeys, List.map_cons, List.mem_cons, if_neg h0]
        rw [ih]
        simp [dictKeys, Ne.symm h0]

theorem mem_dictKeys_dictSet {α : Type} (m : List (String × α)) (k a : String) (v : α) :
    a ∈ dictKeys (dictSet m k v) ↔ a ∈ dictKeys m ∨ a = k := by
  rw [← dictGet_isSome_iff_mem_keys, ← dictGet_isSome_iff_mem_keys]
  by_cases h : a = k
  · subst h
    simp [dictGet_dictSet_self]
  · simp [dictGet_dictSet_ne m k a v h, h]

theorem dictGet_eq_none_of_not_mem_keys {α : Type} (m : List (String × α)) (k : String)
    (h : k ∉ dictKeys m) : dictGet m k = none := by
  rw [← dictGet_isSome_iff_mem_keys] at h
  exact Option.not_isSome_iff_eq_none.mp h

theorem mem_keys_of_dictGet_some {α : Type} (m : List (String × α)) (k : String) (v : α)
    (h : dictGet m k = some v) : k ∈ dictKeys m := by
  rw [← dictGet_isSome_iff_mem_keys, h]
  rfl

/-! ## Snapshot store (`parser_service/storage.py`) -/

/-- A snapshot pair record as written to `rates.json`:
`{"rate": float, "updated_at": str, "source": str}`.  `updated_at` / `source`
are `Option` because stored JSON objects may lack these keys (the code reads
them with `.get`); the legacy resolver write (`core/usecases.py`) stores a
record without `"source"`. -/
structure SnapRec where
  rate : ℚ
  updated_at : Option String
  source : Option String
deriving DecidableEq, Repr

/-- A value stored under a pair key in the snapshot's `pairs` map: either a
record dict or arbitrary non-dict JSON (`junk`), which the merge detects via
`isinstance(cur, dict)`. -/
inductive PairVal where
  | junk : PairVal
  | record (r : SnapRec) : PairVal
deriving DecidableEq, Repr

/-- The snapshot document `{"pairs": {...}, "last_refresh": ...}`. -/
structure Snapshot where
  pairs : List (String × PairVal)
  last_refresh : Option String
deriving DecidableEq, Repr

/-- `_parse` inside `_is_newer` (storage.py lines 130–137): empty/missing
timestamp returns `datetime.min`; otherwise the string is parsed, any
failure again giving `datetime.min`.  `parseIso` stands for the composite
`s ↦ datetime.fromisoformat(s.replace("Z", "+00:00"))` from the source. -/
def pyParse (parseIso : String → Option Dt) (ts : Option String) : Dt :=
  match ts with
  | none => dtMin
  | some s =>
      if s = "" then dtMin
      else (parseIso s).getD dtMin

/-- `_is_newer(ts_new, ts_old)` (storage.py lines 127–139):
`_parse(ts_new) >= _parse(ts_old)`.  The comparison raises `TypeError`
(modelled as `.error ()`) when one side parses naive and the other aware. -/
def is_newer (parseIso : String → Option Dt) (tsNew tsOld : Option String) :
    Except Unit Bool :=
  dtGe (pyParse parseIso tsNew) (pyParse parseIso tsOld)

/-- One iteration of the merge loop (storage.py lines 141–146): the incoming
record replaces the stored value when the stored value is absent or not a
dict (short-circuit: `_is_newer` is not evaluated then) or `_is_newer` holds. -/
def mergeStep (parseIso : String → Option Dt) (pairs : List (String × PairVal))
    (key : String) (obj : SnapRec) : Except Unit (List (String × PairVal)) :=
  match dictGet pairs key with
  | some (.record cur) =>
      match is_newer parseIso obj.updated_at cur.updated_at with
      | .error e => .error e
      | .ok true => .ok (dictSet pairs key (.record obj))
      | .ok false => .ok pairs
  | _ => .ok (dictSet pairs key (.record obj))

/-- The merge loop of `write_snapshot_pairs` over all incoming pairs. -/
def mergeLoop (parseIso : String → Option Dt) (pairs : List (String × PairVal)) :
    List (String × SnapRec) → Except Unit (List (String × PairVal))
  | [] => .ok pairs
  | (key, obj) :: rest =>
      match mergeStep parseIso pairs key obj with
      | .error e => .error e
      | .ok pairs' => mergeLoop parseIso pairs' rest

/-- `PARSER_SNAPSHOT_STRICT` parsing (storage.py lines 109–117):
`str(os.getenv(...,"0")).strip() in {"1","true","True"}`. -/
def parseStrictEnv (env : Option String) : Bool :=
  (env.getD "0").trim = "1" ∨ (env.getD "0").trim = "true" ∨
    (env.getD "0").trim = "True"

/-- `write_snapshot_pairs(new_pairs, last_refresh)` (storage.py lines
100–149), with the already-read stored snapshot and the parsed strict flag
made explicit.  Strict mode replaces `pairs` wholesale; merge mode runs the
freshness loop.  Incoming pairs are record dicts (built by the callers). -/
def write_snapshot_pairs (parseIso : String → Option Dt) (strict : Bool)
    (stored : Snapshot) (new_pairs : List (String × SnapRec))
    (last_refresh : String) : Except Unit Snapshot :=
  if strict then
    .ok ⟨new_pairs.map (fun p => (p.1, PairVal.record p.2)), some last_refresh⟩
  else
    match mergeLoop parseIso stored.pairs new_pairs with
    | .error e => .error e
    | .ok pairs => .ok ⟨pairs, some last_refresh⟩

/-! Merge-loop lemmas. -/

/-- A merge step only touches the key it processes. -/
theorem mergeStep_get_ne (parseIso : String → Option Dt)
    (pairs pairs' : List (String × PairVal)) (key : String) (obj : SnapRec)
    (a : String) (ha : a ≠ key)
    (h : mergeStep parseIso pairs key obj = .ok pairs') :
    dictGet pairs' a = dictGet pairs a := by
  unfold mergeStep at h
  split at h
  · split at h
    · exact absurd h (by simp)
    · cases h
      exact dictGet_dictSet_ne pairs key a _ ha
    · cases h
      rfl
  · cases h
    exact dictGet_dictSet_ne pairs key a _ ha

/-- Keys not occurring in the remaining incoming list keep their value
through the merge loop. -/
theorem mergeLoop_get_stable (parseIso : String → Option Dt)
    (new : List (String × SnapRec)) (pairs m : List (String × PairVal))
    (a : String) (ha : a ∉ new.map Prod.fst)
    (h : mergeLoop parseIso pairs new = .ok m) :
    dictGet m a = dictGet pairs a := by
  induction new generalizing pairs with
  | nil =>
      unfold mergeLoop at h
      cases h
      rfl
  | cons p rest ih =>
      obtain ⟨key, obj⟩ := p
      simp only [List.map_cons, List.mem_cons] at ha
      push_neg at ha
      unfold mergeLoop at h
      cases hstep : mergeStep parseIso pairs key obj with
      | error e =>
          rw [hstep] at h
          exact absurd h (by simp)
      | ok pairs1 =>
          rw [hstep] at h
          rw [ih pairs1 ha.2 h]
          exact mergeStep_get_ne parseIso pairs pairs1 key obj a ha.1 hstep

/-- The merge loop splits over list append. -/
theorem mergeLoop_append (parseIso : String → Option Dt)
    (xs ys : List (String × SnapRec)) (pairs m : List (String × PairVal))
    (h : mergeLoop parseIso pairs (xs ++ ys) = .ok m) :
    ∃ p1, mergeLoop parseIso pairs xs = .ok p1 ∧ mergeLoop parseIso p1 ys = .ok m := by
  induction xs generalizing pairs with
  | nil =>
      exact ⟨pairs, rfl, h⟩
  | cons p rest ih =>
      obtain ⟨key, obj⟩ := p
      rw [List.cons_append] at h
      unfold mergeLoop at h
      cases hstep : mergeStep parseIso pairs key obj with
      | error e =>
          rw [hstep] at h
          exact absurd h (by simp)
      | ok pairs1 =>
          rw [hstep] at h
          obtain ⟨p1, h1, h2⟩ := ih pairs1 h
          refine ⟨p1, ?_, h2⟩
          unfold mergeLoop
          rw [hstep]
          exact h1

/-- A merge step's key set is the old key set plus the processed key. -/
theorem mergeStep_keys (parseIso : String → Option Dt)
    (pairs pairs' : List (String × PairVal)) (key : String) (obj : SnapRec)
    (h : mergeStep parseIso pairs key obj = .ok pairs') (a : String) :
    a ∈ dictKeys pairs' ↔ a ∈ dictKeys pairs ∨ a = key := by
  unfold mergeStep at h
  cases hget : dictGet pairs key with
  | none =>
      rw [hget] at h
      cases h
      exact mem_dictKeys_dictSet pairs key a _
  | some v =>
      rw [hget] at h
      cases v with
      | junk =>
          cases h
          exact mem_dictKeys_dictSet pairs key a _
      | record cur =>
          have hkey : key ∈ dictKeys pairs := mem_keys_of_dictGet_some pairs key _ hget
          dsimp only at h
          cases hnew : is_newer parseIso obj.updated_at cur.updated_at with
          | error e =>
              rw [hnew] at h
              exact absurd h (by simp)
          | ok b =>
              rw [hnew] at h
              cases b with
              | true =>
                  cases h
                  exact mem_dictKeys_dictSet pairs key a _
              | false =>
                  cases h
                  constructor
                  · exact fun hm => Or.inl hm
                  · rintro (hm | rfl)
                    · exact hm
                    · exact hkey

/-- The merged key set is the union of the stored and the incoming keys. -/
theorem mergeLoop_keys (parseIso : String → Option Dt)
    (new : List (String × SnapRec)) (pairs m : List (String × PairVal))
    (h : mergeLoop parseIso pairs new = .ok m) (a : String) :
    a ∈ dictKeys m ↔ a ∈ dictKeys pairs ∨ a ∈ new.map Prod.fst := by
  induction new generalizing pairs with
  | nil =>
      unfold mergeLoop at h
      cases h
      simp
  | cons p rest ih =>
      obtain ⟨key, obj⟩ := p
      unfold mergeLoop at h
      cases hstep : mergeStep parseIso pairs key obj with
      | error e =>
          rw [hstep] at h
          exact absurd h (by simp)
      | ok pairs1 =>
          rw [hstep] at h
          rw [ih pairs1 h, mergeStep_keys parseIso pairs pairs1 key obj hstep a]
          simp only [List.map_cons, List.mem_cons]
          tauto

/-- Behaviour of a merge step at the processed key: absent stored key. -/
theorem mergeStep_get_self_none (parseIso : String → Option Dt)
    (pairs pairs' : List (String × PairVal)) (key : String) (obj : SnapRec)
    (h : mergeStep parseIso pairs key obj = .ok pairs')
    (hget : dictGet pairs key = none) :
    dictGet pairs' key = some (.record obj) := by
  unfold mergeStep at h
  rw [hget] at h
  dsimp only at h
  cases h
  exact dictGet_dictSet_self pairs key _

/-- Behaviour of a merge step at the processed key: non-dict stored value. -/
theorem mergeStep_get_self_junk (parseIso : String → Option Dt)
    (pairs pairs' : List (String × PairVal)) (key : String) (obj : SnapRec)
    (h : mergeStep parseIso pairs key obj = .ok pairs')
    (hget : dictGet pairs key = some .junk) :
    dictGet pairs' key = some (.record obj) := by
  unfold mergeStep at h
  rw [hget] at h
  dsimp only at h
  cases h
  exact dictGet_dictSet_self pairs key _

/-- Behaviour of a merge step at the processed key: `_is_newer` holds. -/
theorem mergeStep_get_self_true (parseIso : String → Option Dt)
    (pairs pairs' : List (String × PairVal)) (key : String) (obj cur : SnapRec)
    (h : mergeStep parseIso pairs key obj = .ok pairs')
    (hget : dictGet pairs key = some (.record cur))
    (hnew : is_newer parseIso obj.updated_at cur.updated_at = .ok true) :
    dictGet pairs' key = some (.record obj) := by
  unfold mergeStep at h
  rw [hget] at h
  dsimp only at h
  rw [hnew] at h
  cases h
  exact dictGet_dictSet_self pairs key _

/-- Behaviour of a merge step at the processed key: `_is_newer` fails. -/
theorem mergeStep_get_self_false (parseIso : String → Option Dt)
    (pairs pairs' : List (String × PairVal)) (key : String) (obj cur : SnapRec)
    (h : mergeStep parseIso pairs key obj = .ok pairs')
    (hget : dictGet pairs key = some (.record cur))
    (hnew : is_newer parseIso obj.updated_at cur.updated_at = .ok false) :
    dictGet pairs' key = some (.record cur) := by
  unfold mergeStep at h
  rw [hget] at h
  dsimp only at h
  rw [hnew] at h
  cases h
  exact hget

/-- A successful merge step never saw `_is_newer` raise. -/
theorem mergeStep_is_newer_not_error (parseIso : String → Option Dt)
    (pairs pairs' : List (String × PairVal)) (key : String) (obj cur : SnapRec)
    (h : mergeStep parseIso pairs key obj = .ok pairs')
    (hget : dictGet pairs key = some (.record cur)) :
    ∃ b, is_newer parseIso obj.updated_at cur.updated_at = .ok b := by
  unfold mergeStep at h
  rw [hget] at h
  dsimp only at h
  cases hnew : is_newer parseIso obj.updated_at cur.updated_at with
  | error e =>
      rw [hnew] at h
      exact absurd h (by simp)
  | ok b => exact ⟨b, rfl⟩

/-- `datetime.min >= d` can only succeed with `False` when `d ≠ datetime.min`
(and raises when `d` is offset-aware). -/
theorem dtGe_min_of_ne_min (d : Dt) (hne : d ≠ dtMin) (b : Bool)
    (h : dtGe dtMin d = .ok b) : b = false := by
  unfold dtGe at h
  rcases d with ⟨aw, tv⟩
  cases aw with
  | true => simp [dtMin] at h
  | false =>
      have ht : tv ≠ 0 := fun h0 => hne (by rw [h0]; rfl)
      cases b with
      | false => rfl
      | true =>
          exfalso
          simp [dtMin, Nat.le_zero, ht] at h

/-- Extract the merge loop outcome from a merge-mode `write_snapshot_pairs`. -/
theorem write_merge_unfold (parseIso : String → Option Dt) (stored : Snapshot)
    (new_pairs : List (String × SnapRec)) (lr : String) (result : Snapshot)
    (h : write_snapshot_pairs parseIso false stored new_pairs lr = .ok result) :
    mergeLoop parseIso stored.pairs new_pairs = .ok result.pairs ∧
      result.last_refresh = some lr := by
  unfold write_snapshot_pairs at h
  cases hm : mergeLoop parseIso stored.pairs new_pairs with
  | error e =>
      rw [hm] at h
      exact absurd h (by simp)
  | ok m =>
      rw [hm] at h
      cases h
      exact ⟨rfl, rfl⟩

/-- A parse function standing for `datetime.fromisoformat` in a run where no
involved timestamp string parses (each would raise `ValueError`). -/
def noParse : String → Option Dt := fun _ => none

/-- A parse table standing for `datetime.fromisoformat` on the concrete
naive ISO strings used by witnesses; time coordinates respect ISO order. -/
def tblParse : String → Option Dt := fun s =>
  if s = "2024-05-01T10:00:00" then some ⟨false, 700⟩
  else if s = "2024-05-02T10:00:00" then some ⟨false, 800⟩
  else none

/-- **C1** (amended).  Merge-mode `write_snapshot_pairs`: for an incoming
`(key, record)`, the incoming record is kept when the key is absent from the
stored snapshot (or holds a non-dict value), kept when `_is_newer` accepts
its `updated_at` against the stored one (parse failure = `datetime.min`,
comparison by `>=`), and dropped in favour of the stored record when
`_is_newer` rejects it; in particular a record whose `updated_at` fails to
parse never wins against a stored record whose `updated_at` parses above
the minimum.  (When both timestamps fail to parse, `min >= min` holds and
the incoming record wins — see the counterexample.) -/
theorem merge_freshness_per_key (parseIso : String → Option Dt)
    (stored : Snapshot) (new_pairs : List (String × SnapRec)) (lr : String)
    (result : Snapshot)
    (h : write_snapshot_pairs parseIso false stored new_pairs lr = .ok result)
    (hnodup : (new_pairs.map Prod.fst).Nodup)
    (key : String) (obj : SnapRec) (hmem : (key, obj) ∈ new_pairs) :
    (dictGet stored.pairs key = none →
        dictGet result.pairs key = some (.record obj))
    ∧ (dictGet stored.pairs key = some .junk →
        dictGet result.pairs key = some (.record obj))
    ∧ (∀ cur, dictGet stored.pairs key = some (.record cur) →
        (is_newer parseIso obj.updated_at cur.updated_at = .ok true →
            dictGet result.pairs key = some (.record obj))
        ∧ (is_newer parseIso obj.updated_at cur.updated_at = .ok false →
            dictGet result.pairs key = some (.record cur)))
    ∧ (∀ cur, dictGet stored.pairs key = some (.record cur) →
        pyParse parseIso obj.updated_at = dtMin →
        pyParse parseIso cur.updated_at ≠ dtMin →
        dictGet result.pairs key = some (.record cur)) := by
  obtain ⟨hm, -⟩ := write_merge_unfold parseIso stored new_pairs lr result h
  obtain ⟨pre, post, rfl⟩ := List.append_of_mem hmem
  have hmap : ((pre ++ (key, obj) :: post).map Prod.fst) =
      pre.map Prod.fst ++ key :: post.map Prod.fst := by simp
  rw [hmap, List.nodup_append] at hnodup
  obtain ⟨-, hcons, hdisj⟩ := hnodup
  have hkey_pre : key ∉ pre.map Prod.fst :=
    fun hk => hdisj hk (List.mem_cons_self _ _)
  have hkey_post : key ∉ post.map Prod.fst := (List.nodup_cons.mp hcons).1
  obtain ⟨p1, hpre, hrest⟩ :=
    mergeLoop_append parseIso pre ((key, obj) :: post) stored.pairs result.pairs hm
  have hp1 : dictGet p1 key = dictGet stored.pairs key :=
    mergeLoop_get_stable parseIso pre stored.pairs p1 key hkey_pre hpre
  unfold mergeLoop at hrest
  cases hstep : mergeStep parseIso p1 key obj with
  | error e =>
      rw [hstep] at hrest
      exact absurd hrest (by simp)
  | ok p2 =>
      rw [hstep] at hrest
      have hm_p2 : dictGet result.pairs key = dictGet p2 key :=
        mergeLoop_get_stable parseIso post p2 result.pairs key hkey_post hrest
      refine ⟨?_, ?_, ?_, ?_⟩
      · intro hget
        rw [hm_p2]
        exact mergeStep_get_self_none parseIso p1 p2 key obj hstep (hp1.trans hget)
      · intro hget
        rw [hm_p2]
        exact mergeStep_get_self_junk parseIso p1 p2 key obj hstep (hp1.trans hget)
      · intro cur hget
        constructor
        · intro hnew
          rw [hm_p2]
          exact mergeStep_get_self_true parseIso p1 p2 key obj cur hstep
            (hp1.trans hget) hnew
        · intro hnew
          rw [hm_p2]
          exact mergeStep_get_self_false parseIso p1 p2 key obj cur hstep
            (hp1.trans hget) hnew
      · intro cur hget hobj hcur
        obtain ⟨b, hb⟩ := mergeStep_is_newer_not_error parseIso p1 p2 key obj cur
          hstep (hp1.trans hget)
        have hb' : dtGe dtMin (pyParse parseIso cur.updated_at) = .ok b := by
          unfold is_newer at hb
          rw [hobj] at hb
          exact hb
        have hfalse := dtGe_min_of_ne_min _ hcur b hb'
        subst hfalse
        rw [hm_p2]
        exact mergeStep_get_self_false parseIso p1 p2 key obj cur hstep
          (hp1.trans hget) hb

/-- **C1** counterexample to the claim as stated: when the stored record's
`updated_at` is itself unparsable, both sides parse to `datetime.min`,
`min >= min` holds, and the incoming record with a malformed `updated_at`
does win the merge against the existing record. -/
theorem merge_malformed_wins_counterexample :
    write_snapshot_pairs noParse false
        ⟨[("BTC_USD", .record ⟨1, some "bad-old", some "A"⟩)], none⟩
        [("BTC_USD", ⟨2, some "bad-new", some "B"⟩)] "lr"
      = .ok ⟨[("BTC_USD", .record ⟨2, some "bad-new", some "B"⟩)], some "lr"⟩
    ∧ noParse "bad-new" = none ∧ noParse "bad-old" = none :=
  ⟨rfl, rfl, rfl⟩

/-- **C1** witness: a fresh-vs-stale merge where the incoming timestamp is
malformed and the stored one parses; the stored record is retained. -/
theorem merge_freshness_per_key_witness :
    write_snapshot_pairs tblParse false
        ⟨[("EUR_USD", .record ⟨9/10, some "2024-05-02T10:00:00", some "P"⟩)], none⟩
        [("EUR_USD", ⟨2, some "oops", some "Q"⟩)] "lr"
      = .ok ⟨[("EUR_USD", .record ⟨9/10, some "2024-05-02T10:00:00", some "P"⟩)],
          some "lr"⟩
    ∧ dictGet [("EUR_USD",
          PairVal.record ⟨9/10, some "2024-05-02T10:00:00", some "P"⟩)] "EUR_USD"
        = some (.record ⟨9/10, some "2024-05-02T10:00:00", some "P"⟩) := by
  refine ⟨rfl, ?_⟩
  exact ((merge_freshness_per_key tblParse
      ⟨[("EUR_USD", .record ⟨9/10, some "2024-05-02T10:00:00", some "P"⟩)], none⟩
      [("EUR_USD", ⟨2, some "oops", some "Q"⟩)] "lr"
      ⟨[("EUR_USD", .record ⟨9/10, some "2024-05-02T10:00:00", some "P"⟩)],
        some "lr"⟩
      rfl (by decide) "EUR_USD" ⟨2, some "oops", some "Q"⟩
      (by simp)).2.2.2 ⟨9/10, some "2024-05-02T10:00:00", some "P"⟩
      rfl rfl (by decide))

/-- **C5**: strict-mode `write_snapshot_pairs` replaces the stored `pairs`
map with exactly the provided pairs; any previously stored key not among
the new keys is gone from the result. -/
theorem strict_write_replaces_entirely (parseIso : String → Option Dt)
    (stored : Snapshot) (new_pairs : List (String × SnapRec)) (lr : String) :
    write_snapshot_pairs parseIso true stored new_pairs lr =
      .ok ⟨new_pairs.map (fun p => (p.1, PairVal.record p.2)), some lr⟩
    ∧ ∀ k, k ∉ new_pairs.map Prod.fst →
        dictGet (new_pairs.map (fun p => (p.1, PairVal.record p.2))) k = none := by
  constructor
  · rfl
  · intro k hk
    apply dictGet_eq_none_of_not_mem_keys
    unfold dictKeys
    rw [List.map_map]
    exact hk

/-- **C5** witness: writing only `EUR_USD` in strict mode over a snapshot
holding `BTC_USD` yields a snapshot holding only `EUR_USD`. -/
theorem strict_write_replaces_entirely_witness :
    write_snapshot_pairs noParse true
        ⟨[("BTC_USD", .record ⟨1, none, none⟩)], none⟩
        [("EUR_USD", ⟨2, none, none⟩)] "lr"
      = .ok ⟨[("EUR_USD", .record ⟨2, none, none⟩)], some "lr"⟩
    ∧ dictGet [("EUR_USD", PairVal.record ⟨2, none, none⟩)] "BTC_USD" = none := by
  have h := strict_write_replaces_entirely noParse
    ⟨[("BTC_USD", .record ⟨1, none, none⟩)], none⟩
    [("EUR_USD", ⟨2, none, none⟩)] "lr"
  exact ⟨h.1, h.2 "BTC_USD" (by decide)⟩

/-- **C10**: merge-mode `write_snapshot_pairs` never removes pairs — the
resulting key set is exactly the union of the stored and incoming key sets;
every previously stored key is still present. -/
theorem merge_write_keys_are_union (parseIso : String → Option Dt)
    (stored : Snapshot) (new_pairs : List (String × SnapRec)) (lr : String)
    (result : Snapshot)
    (h : write_snapshot_pairs parseIso false stored new_pairs lr = .ok result)
    (a : String) :
    a ∈ dictKeys result.pairs ↔
      a ∈ dictKeys stored.pairs ∨ a ∈ new_pairs.map Prod.fst := by
  obtain ⟨hm, -⟩ := write_merge_unfold parseIso stored new_pairs lr result h
  exact mergeLoop_keys parseIso new_pairs stored.pairs result.pairs hm a

/-- **C10** witness: merging `{EUR_USD}` into a snapshot holding `BTC_USD`
keeps `BTC_USD` and adds `EUR_USD`. -/
theorem merge_write_keys_are_union_witness :
    "BTC_USD" ∈ dictKeys
        [("BTC_USD", PairVal.record ⟨1, none, none⟩),
         ("EUR_USD", PairVal.record ⟨2, none, none⟩)]
    ∧ "EUR_USD" ∈ dictKeys
        [("BTC_USD", PairVal.record ⟨1, none, none⟩),
         ("EUR_USD", PairVal.record ⟨2, none, none⟩)] := by
  constructor
  · exact (merge_write_keys_are_union noParse
      ⟨[("BTC_USD", .record ⟨1, none, none⟩)], none⟩
      [("EUR_USD", ⟨2, none, none⟩)] "lr"
      ⟨[("BTC_USD", .record ⟨1, none, none⟩),
        ("EUR_USD", .record ⟨2, none, none⟩)], some "lr"⟩
      rfl "BTC_USD").mpr (Or.inl (by decide))
  · exact (merge_write_keys_are_union noParse
      ⟨[("BTC_USD", .record ⟨1, none, none⟩)], none⟩
      [("EUR_USD", ⟨2, none, none⟩)] "lr"
      ⟨[("BTC_USD", .record ⟨1, none, none⟩),
        ("EUR_USD", .record ⟨2, none, none⟩)], some "lr"⟩
      rfl "EUR_USD").mpr (Or.inr (by decide))

/-! ## History ledger (`parser_service/storage.py`: `append_history`,
`clear_history`) -/

/-- A history row of `exchange_rates.json` as built by the updater:
`{"id", "from_currency", "to_currency", "rate", "timestamp", "source",
"meta": {...}}` (the `meta` sub-dict carries transport diagnostics only and
is omitted).  `id` is `Option` since stored JSON rows may lack the key; ids
written by this system are strings. -/
structure HRec where
  id : Option String
  from_currency : String
  to_currency : String
  rate : ℚ
  timestamp : String
  source : String
deriving DecidableEq, Repr

/-- A ledger element: a row dict, or arbitrary non-dict JSON (`junk`),
which `append_history` skips when collecting seen ids. -/
inductive LEntry where
  | junk : LEntry
  | record (r : HRec) : LEntry
deriving DecidableEq, Repr

/-- `str(rec.get("id"))`: a missing id prints as the string `"None"`. -/
def pyStrOfId (id : Option String) : String := id.getD "None"

/-- The set `seen_ids` built from the current ledger
(storage.py line 58): ids of dict rows, stringified. -/
def seenIds (current : List LEntry) : List String :=
  current.filterMap fun e =>
    match e with
    | .junk => none
    | .record r => some (pyStrOfId r.id)

/-- The `to_add` collection loop of `append_history` (storage.py lines
59–65): a record is dropped when its stringified id is empty or already
seen; an accepted record's id immediately joins the seen set. -/
def collectNew (seen : List String) : List HRec → List HRec
  | [] => []
  | r :: rest =>
      let rid := pyStrOfId r.id
      if rid = "" ∨ rid ∈ seen then collectNew seen rest
      else r :: collectNew (rid :: seen) rest

/-- `append_history(records)` (storage.py lines 50–70) over an explicit
ledger state: returns the added count and the new ledger contents (when
nothing is added, the file is not rewritten). -/
def append_history (current : List LEntry) (records : List HRec) :
    ℕ × List LEntry :=
  let to_add := collectNew (seenIds current) records
  if to_add = [] then (0, current)
  else (to_add.length, current ++ to_add.map .record)

/-- `clear_history()` (storage.py lines 73–85) over the two persisted
resources: truncates the history ledger, reports its former length, and
leaves the rates snapshot alone. -/
structure ParserState where
  history : List LEntry
  snapshot : Snapshot
deriving DecidableEq, Repr

/-- `clear_history` reads the history file, rewrites it as `[]`, returns the
number of rows read; `rates.json` is never touched by it. -/
def clear_history (st : ParserState) : ℕ × ParserState :=
  (st.history.length, ⟨[], st.snapshot⟩)

/-- If every record is skipped, the collection loop returns nothing. -/
theorem collectNew_nil_of_all_skip (seen : List String) (records : List HRec)
    (h : ∀ r ∈ records, pyStrOfId r.id = "" ∨ pyStrOfId r.id ∈ seen) :
    collectNew seen records = [] := by
  induction records with
  | nil => rfl
  | cons r rest ih =>
      unfold collectNew
      rw [if_pos (h r (List.mem_cons_self _ _))]
      exact ih fun x hx => h x (List.mem_cons_of_mem _ hx)

/-- Every record with a nonempty id is covered after one pass: its id was
seen before, or it is among the ids just collected. -/
theorem collectNew_covers (records : List HRec) (seen : List String) (r : HRec)
    (hr : r ∈ records) (hne : pyStrOfId r.id ≠ "") :
    pyStrOfId r.id ∈ seen ∨
      pyStrOfId r.id ∈ (collectNew seen records).map (fun x => pyStrOfId x.id) := by
  induction records generalizing seen with
  | nil => cases hr
  | cons s rest ih =>
      rcases List.mem_cons.mp hr with rfl | hmem
      · by_cases hs : pyStrOfId r.id = "" ∨ pyStrOfId r.id ∈ seen
        · rcases hs with hs | hs
          · exact absurd hs hne
          · exact Or.inl hs
        · right
          unfold collectNew
          rw [if_neg hs]
          exact List.mem_cons_self _ _
      · by_cases hs : pyStrOfId s.id = "" ∨ pyStrOfId s.id ∈ seen
        · unfold collectNew
          rw [if_pos hs]
          exact ih seen hmem
        · unfold collectNew
          rw [if_neg hs]
          rcases ih (pyStrOfId s.id :: seen) hmem with hin | hin
          · rcases List.mem_cons.mp hin with heq | hin
            · right
              rw [heq]
              exact List.mem_cons_self _ _
            · exact Or.inl hin
          · right
            simp only [List.map_cons, List.mem_cons]
            exact Or.inr hin

/-- Seen ids of an extended ledger. -/
theorem seenIds_append (current : List LEntry) (added : List HRec) :
    seenIds (current ++ added.map LEntry.record) =
      seenIds current ++ added.map (fun x => pyStrOfId x.id) := by
  unfold seenIds
  rw [List.filterMap_append, List.filterMap_map]
  congr 1
  induction added with
  | nil => rfl
  | cons a rest ih =>
      simp only [List.filterMap_cons, Function.comp_apply, List.map_cons]
      rw [ih]

/-- **C2**: `append_history` is idempotent by record id: records whose ids
are all already in the ledger are silently dropped — the call returns added
count `0` and leaves the ledger unchanged — and, in particular, re-appending
any batch right after appending it adds nothing. -/
theorem append_history_idempotent (current : List LEntry) (records : List HRec) :
    ((∀ r ∈ records, pyStrOfId r.id ∈ seenIds current) →
        append_history current records = (0, current))
    ∧ append_history (append_history current records).2 records
        = (0, (append_history current records).2) := by
  constructor
  · intro h
    unfold append_history
    rw [collectNew_nil_of_all_skip _ _ fun r hr => Or.inr (h r hr)]
    rfl
  · rcases hadd : collectNew (seenIds current) records with _ | ⟨a, rest⟩
    · have h1 : append_history current records = (0, current) := by
        unfold append_history
        rw [hadd]
        rfl
      rw [h1, h1]
    · have h1 : append_history current records =
          ((a :: rest).length, current ++ (a :: rest).map .record) := by
        unfold append_history
        rw [hadd]
        rfl
      rw [h1]
      unfold append_history
      rw [collectNew_nil_of_all_skip _ _ ?_]
      · rfl
      · intro r hr
        by_cases hne : pyStrOfId r.id = ""
        · exact Or.inl hne
        · right
          rw [seenIds_append]
          rcases collectNew_covers records (seenIds current) r hr hne with hin | hin
          · exact List.mem_append_left _ hin
          · rw [hadd] at hin
            exact List.mem_append_right _ hin

/-- **C2** witness: re-appending a record whose id the ledger already holds
adds nothing and keeps the ledger intact. -/
theorem append_history_idempotent_witness :
    append_history
        [LEntry.record ⟨some "EUR_USD_2024-05-01T10:00:00Z", "EUR", "USD",
          9/10, "2024-05-01T10:00:00Z", "ExchangeRate-API"⟩]
        [⟨some "EUR_USD_2024-05-01T10:00:00Z", "EUR", "USD",
          9/10, "2024-05-01T10:00:00Z", "ExchangeRate-API"⟩]
      = (0, [LEntry.record ⟨some "EUR_USD_2024-05-01T10:00:00Z", "EUR", "USD",
          9/10, "2024-05-01T10:00:00Z", "ExchangeRate-API"⟩]) :=
  (append_history_idempotent _ _).1 (by decide)

/-- **C7**: clearing the history ledger returns exactly the number of rows
it contained, empties it, and leaves the rates snapshot untouched. -/
theorem clear_history_frame (st : ParserState) :
    (clear_history st).1 = st.history.length
    ∧ (clear_history st).2.history = []
    ∧ (clear_history st).2.snapshot = st.snapshot :=
  ⟨rfl, rfl, rfl⟩

/-! ## Update orchestrator (`parser_service/updater.py`) -/

/-- An aggregated rate value: a float, or a value on which `float(...)`
raises (the updater's defensive `except: continue`). -/
inductive RVal where
  | num (q : ℚ) : RVal
  | nonnum : RVal
deriving DecidableEq, Repr

/-- Per-pair fetch metadata as produced by the provider clients
(`timestamp`, `source`; the transport diagnostics `status_code`,
`request_ms`, `etag`, `raw_id` do not influence any modelled behaviour). -/
structure FetchMeta where
  timestamp : Option String
  source : Option String
deriving DecidableEq, Repr

/-- `str(meta.get("timestamp"))` (updater.py line 110): a missing pair meta
or missing timestamp yields the literal string `"None"`. -/
def tsOfMeta (meta : Option FetchMeta) : String :=
  (meta.bind FetchMeta.timestamp).getD "None"

/-- `str(meta.get("source") or "Unknown")` (updater.py line 111): missing or
empty source becomes `"Unknown"`. -/
def srcOfMeta (meta : Option FetchMeta) : String :=
  match meta.bind FetchMeta.source with
  | none => "Unknown"
  | some s => if s = "" then "Unknown" else s

/-- Helper for `pair.split("_", 1)`: split a character list at the first
underscore. -/
def splitCharsAux : List Char → Option (List Char × List Char)
  | [] => none
  | c :: rest =>
      if c = '_' then some ([], rest)
      else (splitCharsAux rest).map (fun p => (c :: p.1, p.2))

/-- `frm, to = pair.split("_", 1)` (updater.py lines 66, 112): `none` models
the `ValueError` raised by unpacking when the key has no underscore. -/
def splitPair (s : String) : Option (String × String) :=
  (splitCharsAux s.data).map (fun p => (⟨p.1⟩, ⟨p.2⟩))

/-- The snapshot-pairs building loop of `RatesUpdater.run_update`
(updater.py lines 107–122): for each aggregated `(pair, rate)`, resolve the
pair meta, split the key, skip non-numeric or non-positive rates, and write
the forward record and the inverse record (rate `1/r`) sharing timestamp
and source.  Later entries overwrite earlier writes to the same key. -/
def buildPairsLoop (meta_all : List (String × FetchMeta))
    (pairs : List (String × SnapRec)) :
    List (String × RVal) → Except Unit (List (String × SnapRec))
  | [] => .ok pairs
  | (pair, rv) :: rest =>
      let meta := dictGet meta_all pair
      let ts := tsOfMeta meta
      let src := srcOfMeta meta
      match splitPair pair with
      | none => .error ()
      | some (frm, toC) =>
          match rv with
          | .nonnum => buildPairsLoop meta_all pairs rest
          | .num r =>
              if r ≤ 0 then buildPairsLoop meta_all pairs rest
              else
                buildPairsLoop meta_all
                  (dictSet (dictSet pairs pair ⟨r, some ts, some src⟩)
                    (toC ++ "_" ++ frm) ⟨1/r, some ts, some src⟩) rest

/-- The bidirectional pairs map built by one `run_update` from the
aggregated rates and metadata. -/
def buildSnapshotPairs (rates_all : List (String × RVal))
    (meta_all : List (String × FetchMeta)) :
    Except Unit (List (String × SnapRec)) :=
  buildPairsLoop meta_all [] rates_all

/-- The snapshot keys one aggregated entry writes: the forward and inverse
keys for a positive numeric rate, nothing otherwise. -/
def producedKeys (entry : String × RVal) : List String :=
  match splitPair entry.1, entry.2 with
  | some (frm, toC), .num r =>
      if r ≤ 0 then [] else [entry.1, toC ++ "_" ++ frm]
  | _, _ => []

/-- Keys not produced by the remaining entries keep their value through the
pairs-building loop. -/
theorem buildPairsLoop_get_stable (meta_all : List (String × FetchMeta))
    (todo : List (String × RVal)) (pairs m : List (String × SnapRec))
    (a : String) (ha : ∀ e ∈ todo, a ∉ producedKeys e)
    (h : buildPairsLoop meta_all pairs todo = .ok m) :
    dictGet m a = dictGet pairs a := by
  induction todo generalizing pairs with
  | nil =>
      unfold buildPairsLoop at h
      cases h
      rfl
  | cons e rest ih =>
      obtain ⟨pair, rv⟩ := e
      have hhead := ha (pair, rv) (List.mem_cons_self _ _)
      have htail : ∀ x ∈ rest, a ∉ producedKeys x :=
        fun x hx => ha x (List.mem_cons_of_mem _ hx)
      unfold buildPairsLoop at h
      cases hsplit : splitPair pair with
      | none =>
          rw [hsplit] at h
          dsimp only at h
          exact absurd h (by simp)
      | some ft =>
          obtain ⟨frm, toC⟩ := ft
          rw [hsplit] at h
          dsimp only at h
          cases rv with
          | nonnum =>
              dsimp only at h
              exact ih pairs htail h
          | num r =>
              dsimp only at h
              by_cases hr : r ≤ 0
              · rw [if_pos hr] at h
                exact ih pairs htail h
              · rw [if_neg hr] at h
                rw [ih _ htail h]
                unfold producedKeys at hhead
                rw [hsplit] at hhead
                dsimp only at hhead
                rw [if_neg hr] at hhead
                simp only [List.mem_cons, List.not_mem_nil, or_false] at hhead
                push_neg at hhead
                rw [dictGet_dictSet_ne _ _ _ _ hhead.2,
                  dictGet_dictSet_ne _ _ _ _ hhead.1]

/-- The pairs-building loop splits over list append. -/
theorem buildPairsLoop_append (meta_all : List (String × FetchMeta))
    (xs ys : List (String × RVal)) (pairs m : List (String × SnapRec))
    (h : buildPairsLoop meta_all pairs (xs ++ ys) = .ok m) :
    ∃ p1, buildPairsLoop meta_all pairs xs = .ok p1 ∧
      buildPairsLoop meta_all p1 ys = .ok m := by
  induction xs generalizing pairs with
  | nil => exact ⟨pairs, rfl, h⟩
  | cons e rest ih =>
      obtain ⟨pair, rv⟩ := e
      rw [List.cons_append] at h
      unfold buildPairsLoop at h
      cases hsplit : splitPair pair with
      | none =>
          rw [hsplit] at h
          dsimp only at h
          exact absurd h (by simp)
      | some ft =>
          obtain ⟨frm, toC⟩ := ft
          rw [hsplit] at h
          dsimp only at h
          cases rv with
          | nonnum =>
              dsimp only at h
              obtain ⟨p1, h1, h2⟩ := ih pairs h
              refine ⟨p1, ?_, h2⟩
              unfold buildPairsLoop
              rw [hsplit]
              exact h1
          | num r =>
              dsimp only at h
              by_cases hr : r ≤ 0
              · rw [if_pos hr] at h
                obtain ⟨p1, h1, h2⟩ := ih pairs h
                refine ⟨p1, ?_, h2⟩
                unfold buildPairsLoop
                rw [hsplit]
                dsimp only
                rw [if_pos hr]
                exact h1
              · rw [if_neg hr] at h
                obtain ⟨p1, h1, h2⟩ := ih _ h
                refine ⟨p1, ?_, h2⟩
                unfold buildPairsLoop
                rw [hsplit]
                dsimp only
                rw [if_neg hr]
                exact h1

/-- The key set built by the loop is exactly the keys produced by the
processed entries (plus the accumulator's keys). -/
theorem buildPairsLoop_keys (meta_all : List (String × FetchMeta))
    (todo : List (String × RVal)) (pairs m : List (String × SnapRec))
    (h : buildPairsLoop meta_all pairs todo = .ok m) (a : String) :
    a ∈ dictKeys m ↔ a ∈ dictKeys pairs ∨ ∃ e ∈ todo, a ∈ producedKeys e := by
  induction todo generalizing pairs with
  | nil =>
      unfold buildPairsLoop at h
      cases h
      simp
  | cons e rest ih =>
      obtain ⟨pair, rv⟩ := e
      unfold buildPairsLoop at h
      cases hsplit : splitPair pair with
      | none =>
          rw [hsplit] at h
          dsimp only at h
          exact absurd h (by simp)
      | some ft =>
          obtain ⟨frm, toC⟩ := ft
          rw [hsplit] at h
          dsimp only at h
          cases rv with
          | nonnum =>
              dsimp only at h
              have hprod : producedKeys (pair, RVal.nonnum) = [] := by
                simp [producedKeys, hsplit]
              rw [ih pairs h]
              simp [hprod]
          | num r =>
              dsimp only at h
              have hprod : producedKeys (pair, RVal.num r) =
                  if r ≤ 0 then [] else [pair, toC ++ "_" ++ frm] := by
                simp [producedKeys, hsplit]
              by_cases hr : r ≤ 0
              · rw [if_pos hr] at h
                rw [ih pairs h]
                simp [hprod, hr]
              · rw [if_neg hr] at h
                rw [ih _ h]
                rw [mem_dictKeys_dictSet, mem_dictKeys_dictSet]
                constructor
                · rintro (((hp | hEq1) | hEq2) | he)
                  · exact Or.inl hp
                  · exact Or.inr ⟨(pair, .num r), List.mem_cons_self _ _,
                      by rw [hEq1]; simp [hprod, hr]⟩
                  · exact Or.inr ⟨(pair, .num r), List.mem_cons_self _ _,
                      by rw [hEq2]; simp [hprod, hr]⟩
                  · obtain ⟨x, hx, hpk⟩ := he
                    exact Or.inr ⟨x, List.mem_cons_of_mem _ hx, hpk⟩
                · rintro (hp | ⟨x, hx, hpk⟩)
                  · exact Or.inl (Or.inl (Or.inl hp))
                  · rcases List.mem_cons.mp hx with rfl | hx
                    · simp only [hprod, if_neg hr, List.mem_cons,
                        List.mem_singleton, List.not_mem_nil, or_false] at hpk
                      rcases hpk with rfl | rfl
                      · exact Or.inl (Or.inl (Or.inr rfl))
                      · exact Or.inl (Or.inr rfl)
                    · exact Or.inr ⟨x, hx, hpk⟩

/-- **C3** (amended).  The snapshot pairs built by one `run_update`: for an
aggregated entry `X_Y` with numeric rate `r > 0` such that no *other*
aggregated entry writes the key `X_Y` or its inverse `Y_X` (and
`Y_X ≠ X_Y`), the built pairs contain the forward record `X_Y` with rate
`r` and the inverse record `Y_X` with rate `1/r` (exact product `1`), both
carrying the identical timestamp and source resolved from the entry's
metadata; and a key appears in the built pairs only if some aggregated
entry with a positive numeric rate produces it — non-positive or
non-numeric entries are discarded.  (Without the no-other-writer proviso
the claim fails: a later entry that is the reverse pair overwrites the
forward record — see the counterexample.) -/
theorem build_pairs_bidirectional
    (rates_all : List (String × RVal)) (meta_all : List (String × FetchMeta))
    (m : List (String × SnapRec))
    (h : buildSnapshotPairs rates_all meta_all = .ok m)
    (hnodup : (rates_all.map Prod.fst).Nodup)
    (key : String) (r : ℚ) (hmem : (key, RVal.num r) ∈ rates_all) (hr : 0 < r)
    (frm toC : String) (hsplit : splitPair key = some (frm, toC))
    (hinv : toC ++ "_" ++ frm ≠ key)
    (hdist : ∀ e ∈ rates_all, e.1 ≠ key →
        key ∉ producedKeys e ∧ (toC ++ "_" ++ frm) ∉ producedKeys e) :
    dictGet m key = some ⟨r, some (tsOfMeta (dictGet meta_all key)),
        some (srcOfMeta (dictGet meta_all key))⟩
    ∧ dictGet m (toC ++ "_" ++ frm) = some ⟨1/r,
        some (tsOfMeta (dictGet meta_all key)),
        some (srcOfMeta (dictGet meta_all key))⟩
    ∧ r * (1/r) = 1
    ∧ (∀ a, a ∈ dictKeys m ↔ ∃ e ∈ rates_all, a ∈ producedKeys e) := by
  have hkeys : ∀ a, a ∈ dictKeys m ↔ ∃ e ∈ rates_all, a ∈ producedKeys e := by
    intro a
    have := buildPairsLoop_keys meta_all rates_all [] m h a
    simpa [dictKeys] using this
  obtain ⟨pre, post, rfl⟩ := List.append_of_mem hmem
  have hmap : ((pre ++ (key, RVal.num r) :: post).map Prod.fst) =
      pre.map Prod.fst ++ key :: post.map Prod.fst := by simp
  rw [hmap, List.nodup_append] at hnodup
  obtain ⟨-, hcons, hdisj⟩ := hnodup
  have hkey_post : key ∉ post.map Prod.fst := (List.nodup_cons.mp hcons).1
  have hpost_ne : ∀ e ∈ post, e.1 ≠ key := by
    intro e he heq
    exact hkey_post (heq ▸ List.mem_map_of_mem Prod.fst he)
  have hpost_no : ∀ e ∈ post, key ∉ producedKeys e := by
    intro e he
    exact (hdist e (List.mem_append_right _ (List.mem_cons_of_mem _ he))
      (hpost_ne e he)).1
  have hpost_no' : ∀ e ∈ post, (toC ++ "_" ++ frm) ∉ producedKeys e := by
    intro e he
    exact (hdist e (List.mem_append_right _ (List.mem_cons_of_mem _ he))
      (hpost_ne e he)).2
  obtain ⟨p1, hpre, hrest⟩ :=
    buildPairsLoop_append meta_all pre ((key, RVal.num r) :: post) [] m h
  unfold buildPairsLoop at hrest
  rw [hsplit] at hrest
  dsimp only at hrest
  rw [if_neg (not_le.mpr hr)] at hrest
  have hm_key : dictGet m key =
      dictGet (dictSet (dictSet p1 key
          ⟨r, some (tsOfMeta (dictGet meta_all key)),
            some (srcOfMeta (dictGet meta_all key))⟩)
        (toC ++ "_" ++ frm)
          ⟨1/r, some (tsOfMeta (dictGet meta_all key)),
            some (srcOfMeta (dictGet meta_all key))⟩) key :=
    buildPairsLoop_get_stable meta_all post _ m key hpost_no hrest
  have hm_inv : dictGet m (toC ++ "_" ++ frm) =
      dictGet (dictSet (dictSet p1 key
          ⟨r, some (tsOfMeta (dictGet meta_all key)),
            some (srcOfMeta (dictGet meta_all key))⟩)
        (toC ++ "_" ++ frm)
          ⟨1/r, some (tsOfMeta (dictGet meta_all key)),
            some (srcOfMeta (dictGet meta_all key))⟩) (toC ++ "_" ++ frm) :=
    buildPairsLoop_get_stable meta_all post _ m (toC ++ "_" ++ frm) hpost_no' hrest
  refine ⟨?_, ?_, mul_one_div_cancel hr.ne', hkeys⟩
  · rw [hm_key, dictGet_dictSet_ne _ _ _ _ (Ne.symm hinv), dictGet_dictSet_self]
  · rw [hm_inv, dictGet_dictSet_self]

/-- **C3** counterexample to the claim as stated: when the aggregated rates
contain both `A_B` and its reverse `B_A`, the later entry's inverse write
overwrites the earlier forward record, so the written pairs do *not* contain
`A_B` with its aggregated rate `2` (they hold `1/3`). -/
theorem build_pairs_overwrite_counterexample :
    buildSnapshotPairs [("A_B", .num 2), ("B_A", .num 3)] []
      = .ok [("A_B", ⟨1/3, some "None", some "Unknown"⟩),
             ("B_A", ⟨3, some "None", some "Unknown"⟩)]
    ∧ ¬ ((1 : ℚ)/3 = 2) := by
  constructor
  · rfl
  · norm_num

/-- **C3** witness: a single aggregated `BTC_USD = 2` produces the forward
and the inverse (`USD_BTC = 1/2`) records with shared timestamp and source. -/
theorem build_pairs_bidirectional_witness :
    dictGet [("BTC_USD", SnapRec.mk 2 (some "2024-05-01T10:00:00Z")
          (some "CoinGecko")),
        ("USD_BTC", SnapRec.mk (1/2) (some "2024-05-01T10:00:00Z")
          (some "CoinGecko"))] "BTC_USD"
      = some ⟨2, some (tsOfMeta (dictGet
          [("BTC_USD", FetchMeta.mk (some "2024-05-01T10:00:00Z")
            (some "CoinGecko"))] "BTC_USD")),
          some (srcOfMeta (dictGet
          [("BTC_USD", FetchMeta.mk (some "2024-05-01T10:00:00Z")
            (some "CoinGecko"))] "BTC_USD"))⟩
    ∧ dictGet [("BTC_USD", SnapRec.mk 2 (some "2024-05-01T10:00:00Z")
          (some "CoinGecko")),
        ("USD_BTC", SnapRec.mk (1/2) (some "2024-05-01T10:00:00Z")
          (some "CoinGecko"))] ("USD" ++ "_" ++ "BTC")
      = some ⟨1/2, some (tsOfMeta (dictGet
          [("BTC_USD", FetchMeta.mk (some "2024-05-01T10:00:00Z")
            (some "CoinGecko"))] "BTC_USD")),
          some (srcOfMeta (dictGet
          [("BTC_USD", FetchMeta.mk (some "2024-05-01T10:00:00Z")
            (some "CoinGecko"))] "BTC_USD"))⟩ := by
  have h := build_pairs_bidirectional
    [("BTC_USD", .num 2)]
    [("BTC_USD", FetchMeta.mk (some "2024-05-01T10:00:00Z") (some "CoinGecko"))]
    [("BTC_USD", SnapRec.mk 2 (some "2024-05-01T10:00:00Z") (some "CoinGecko")),
     ("USD_BTC", SnapRec.mk (1/2) (some "2024-05-01T10:00:00Z")
       (some "CoinGecko"))]
    rfl (by decide) "BTC_USD" 2 (by decide) (by norm_num)
    "BTC" "USD" (by decide) (by decide)
    (by
      intro e he hne
      simp only [List.mem_singleton] at he
      exact absurd (by rw [he]) hne)
  exact ⟨h.1, h.2.1⟩

/-! ## `RatesUpdater.run_update` (updater.py lines 28–148) -/

/-- One provider's fetch outcome: `(rates, meta)` on success, any raised
exception (`ApiRequestError` etc.) as `.error`. -/
structure FetchRes where
  rates : List (String × ℚ)
  meta : List (String × FetchMeta)
deriving DecidableEq, Repr

/-- The run summary `{"fiat": ..., "crypto": ..., "added": ...}`. -/
structure Summary where
  fiat : ℕ
  crypto : ℕ
  added : ℕ
deriving DecidableEq, Repr

/-- The fetch loop of `run_update` (updater.py lines 41–60): iterate the
selected provider names, skip unknown names, catch any provider error (log
and continue), and on success record the pair count and merge the rates and
metadata into the aggregates. -/
def fetchLoop (clients : List (String × Except Unit FetchRes)) :
    List String → List (String × ℕ) → List (String × ℚ) →
      List (String × FetchMeta) →
      List (String × ℕ) × List (String × ℚ) × List (String × FetchMeta)
  | [], counters, rates_all, meta_all => (counters, rates_all, meta_all)
  | name :: rest, counters, rates_all, meta_all =>
      match dictGet clients name with
      | none => fetchLoop clients rest counters rates_all meta_all
      | some (.error _) => fetchLoop clients rest counters rates_all meta_all
      | some (.ok res) =>
          fetchLoop clients rest (dictSet counters name res.rates.length)
            (dictUpdate rates_all res.rates) (dictUpdate meta_all res.meta)

/-- The fetch phase: provider selection (a single named source or all
clients, updater.py line 44) plus the fetch loop, starting from the
counters `{"exchangerate": 0, "coingecko": 0}`. -/
def fetchPhase (clients : List (String × Except Unit FetchRes))
    (source : Option String) :
    List (String × ℕ) × List (String × ℚ) × List (String × FetchMeta) :=
  let sources := match source with
    | some s => [s]
    | none => clients.map Prod.fst
  fetchLoop clients sources [("exchangerate", 0), ("coingecko", 0)] [] []

/-- `str(meta.get("timestamp") or now_iso)` (updater.py lines 67–73):
missing or empty timestamp falls back to the current time string. -/
def tsOfMetaOr (meta : Option FetchMeta) (fallback : String) : String :=
  match meta.bind FetchMeta.timestamp with
  | none => fallback
  | some s => if s = "" then fallback else s

/-- The history-row building loop of `run_update` (updater.py lines 63–90):
one row per aggregated pair with `id = frm + "_" + to + "_" + ts`; a pair
key without an underscore raises (unpacking `ValueError`). -/
def buildHistoryRows (meta_all : List (String × FetchMeta)) (nowIso : String) :
    List (String × ℚ) → Except Unit (List HRec)
  | [] => .ok []
  | (pair, rate) :: rest =>
      let meta := dictGet meta_all pair
      match splitPair pair with
      | none => .error ()
      | some (frm, toC) =>
          let ts := tsOfMetaOr meta nowIso
          match buildHistoryRows meta_all nowIso rest with
          | .error e => .error e
          | .ok rows =>
              .ok (⟨some (frm ++ "_" ++ toC ++ "_" ++ ts), frm, toC, rate, ts,
                srcOfMeta meta⟩ :: rows)

/-- `RatesUpdater.run_update(source)` (updater.py lines 28–148) over an
explicit state: fetch (provider failures caught), build and append history
rows (unless disabled), build bidirectional snapshot pairs, write the
snapshot (strict or merge), and return the summary.  `clients` carries each
provider's fetch outcome; rates returned by the real clients are floats, so
aggregated values enter the pairs build as numeric. -/
def run_update (clients : List (String × Except Unit FetchRes))
    (source : Option String) (historyOff : Bool) (strict : Bool)
    (parseIso : String → Option Dt) (st : ParserState) (nowIso : String) :
    Except Unit (Summary × ParserState) :=
  let fetched := fetchPhase clients source
  let counters := fetched.1
  let rates_all := fetched.2.1
  let meta_all := fetched.2.2
  match buildHistoryRows meta_all nowIso rates_all with
  | .error e => .error e
  | .ok rows =>
      let appended :=
        if historyOff then (0, st.history) else append_history st.history rows
      match buildSnapshotPairs (rates_all.map (fun p => (p.1, RVal.num p.2)))
          meta_all with
      | .error e => .error e
      | .ok new_pairs =>
          match write_snapshot_pairs parseIso strict st.snapshot new_pairs
              nowIso with
          | .error e => .error e
          | .ok snap' =>
              .ok (⟨(dictGet counters "exchangerate").getD 0,
                    (dictGet counters "coingecko").getD 0, appended.1⟩,
                  ⟨appended.2, snap'⟩)

/-- Setting a fresh key appends it. -/
theorem dictSet_eq_append_of_not_mem {α : Type} (m : List (String × α))
    (k : String) (v : α) (h : k ∉ dictKeys m) :
    dictSet m k v = m ++ [(k, v)] := by
  induction m with
  | nil => rfl
  | cons p rest ih =>
      obtain ⟨k₀, v₀⟩ := p
      simp only [dictKeys, List.map_cons, List.mem_cons] at h
      push_neg at h
      unfold dictSet
      rw [if_neg (Ne.symm h.1), ih h.2]
      rfl

/-- Updating a dict with key-disjoint, key-distinct bindings appends them. -/
theorem dictUpdate_eq_append {α : Type} (l m : List (String × α))
    (hd : ∀ k ∈ l.map Prod.fst, k ∉ dictKeys m)
    (hn : (l.map Prod.fst).Nodup) : dictUpdate m l = m ++ l := by
  induction l generalizing m with
  | nil => simp [dictUpdate]
  | cons p rest ih =>
      obtain ⟨k, v⟩ := p
      simp only [List.map_cons, List.nodup_cons] at hn
      have hset : dictSet m k v = m ++ [(k, v)] :=
        dictSet_eq_append_of_not_mem m k v
          (hd k (by simp))
      have hstep : dictUpdate m ((k, v) :: rest) = dictUpdate (dictSet m k v) rest := rfl
      rw [hstep, hset, ih (m ++ [(k, v)]) ?_ hn.2, List.append_assoc]
      · rfl
      · intro k' hk'
        simp only [dictKeys, List.map_append, List.mem_append] at *
        push_neg
        constructor
        · exact hd k' (by simp [hk'])
        · simp only [List.map_cons, List.map_nil, List.mem_singleton]
          intro heq
          exact hn.1 (heq ▸ hk')

/-- Building a dict from scratch with distinct keys yields the list itself. -/
theorem dictUpdate_nil {α : Type} (l : List (String × α))
    (hn : (l.map Prod.fst).Nodup) : dictUpdate [] l = l := by
  rw [dictUpdate_eq_append l [] (by simp [dictKeys]) hn]
  rfl

/-- A parse table standing for the storage-side composite
`s ↦ datetime.fromisoformat(s.replace("Z", "+00:00"))` on the concrete
strings used below: the `Z`-suffixed string parses offset-aware, the plain
string parses naive. -/
def tzParse : String → Option Dt := fun s =>
  if s = "2025-01-01T00:00:00Z" then some ⟨true, 1000⟩
  else if s = "2024-01-01T00:00:00" then some ⟨false, 900⟩
  else none

/-- **C6** counterexample to the claim as stated: provider A fails, provider
B succeeds, yet an exception still escapes `run_update` — the snapshot merge
compares B's offset-aware incoming timestamp with a stored naive timestamp
and the `>=` comparison raises `TypeError`, which no caller catches. -/
theorem run_update_escape_counterexample :
    run_update
        [("exchangerate", .error ()),
         ("coingecko", .ok ⟨[("BTC_USD", 2)],
            [("BTC_USD", ⟨some "2025-01-01T00:00:00Z", some "CoinGecko"⟩)]⟩)]
        none false false tzParse
        ⟨[], ⟨[("BTC_USD", .record ⟨1, some "2024-01-01T00:00:00", some "X"⟩)],
          none⟩⟩
        "2025-01-01T00:10:00Z"
      = .error () := rfl

/-- **C6** (amended).  Partial provider failure is not fatal to the fetch
loop: when provider "exchangerate" fails and provider "coingecko" succeeds,
and the run's persistence steps complete (no exception from the history
build or the snapshot write), the run returns a summary whose fiat count is
0, whose crypto count is the successful provider's pair count, and whose
added count (and resulting ledger) is exactly what appending the rows built
from the successful provider's data yields.  (Unconditionally no exception
can escape is false — see the counterexample.) -/
theorem run_update_partial_failure (B : FetchRes) (strict : Bool)
    (parseIso : String → Option Dt) (st : ParserState) (nowIso : String)
    (sum : Summary) (st' : ParserState)
    (h : run_update [("exchangerate", .error ()), ("coingecko", .ok B)] none
        false strict parseIso st nowIso = .ok (sum, st'))
    (hnr : (B.rates.map Prod.fst).Nodup)
    (hnm : (B.meta.map Prod.fst).Nodup) :
    sum.fiat = 0 ∧ sum.crypto = B.rates.length
    ∧ ∃ rows, buildHistoryRows B.meta nowIso B.rates = .ok rows
        ∧ sum.added = (append_history st.history rows).1
        ∧ st'.history = (append_history st.history rows).2 := by
  have hfetch : fetchPhase
      [("exchangerate", .error ()), ("coingecko", .ok B)] none =
      ([("exchangerate", 0), ("coingecko", B.rates.length)],
        dictUpdate [] B.rates, dictUpdate [] B.meta) := rfl
  unfold run_update at h
  rw [hfetch] at h
  dsimp only at h
  rw [dictUpdate_nil B.rates hnr, dictUpdate_nil B.meta hnm] at h
  cases hrows : buildHistoryRows B.meta nowIso B.rates with
  | error e =>
      rw [hrows] at h
      exact absurd h (by simp)
  | ok rows =>
      rw [hrows] at h
      dsimp only at h
      cases hpairs : buildSnapshotPairs
          (B.rates.map (fun p => (p.1, RVal.num p.2))) B.meta with
      | error e =>
          rw [hpairs] at h
          exact absurd h (by simp)
      | ok new_pairs =>
          rw [hpairs] at h
          dsimp only at h
          cases hw : write_snapshot_pairs parseIso strict st.snapshot new_pairs
              nowIso with
          | error e =>
              rw [hw] at h
              exact absurd h (by simp)
          | ok snap' =>
              rw [hw] at h
              dsimp only at h
              injection h with h'
              have hsum := congrArg Prod.fst h'
              have hst := congrArg Prod.snd h'
              dsimp only at hsum hst
              refine ⟨?_, ?_, rows, rfl, ?_, ?_⟩
              · rw [← hsum]
                rfl
              · rw [← hsum]
                rfl
              · rw [← hsum]
                rfl
              · rw [← hst]
                rfl

/-- **C6** witness: provider A ("exchangerate") fails, provider B
("coingecko") succeeds with one pair over an empty state; the run completes
and the summary reports fiat 0, crypto 1, added 1. -/
theorem run_update_partial_failure_witness :
    (Summary.mk 0 1 1).fiat = 0
    ∧ (Summary.mk 0 1 1).crypto =
        (FetchRes.mk [("BTC_USD", (2 : ℚ))]
          [("BTC_USD", FetchMeta.mk (some "2025-01-01T00:00:00Z")
            (some "CoinGecko"))]).rates.length
    ∧ ∃ rows, buildHistoryRows
          [("BTC_USD", FetchMeta.mk (some "2025-01-01T00:00:00Z")
            (some "CoinGecko"))]
          "2025-01-01T00:10:00Z" [("BTC_USD", (2 : ℚ))] = .ok rows
        ∧ (Summary.mk 0 1 1).added = (append_history [] rows).1
        ∧ (ParserState.mk
            [LEntry.record ⟨some "BTC_USD_2025-01-01T00:00:00Z", "BTC", "USD",
              2, "2025-01-01T00:00:00Z", "CoinGecko"⟩]
            ⟨[("BTC_USD", .record ⟨2, some "2025-01-01T00:00:00Z",
                some "CoinGecko"⟩),
              ("USD_BTC", .record ⟨1/2, some "2025-01-01T00:00:00Z",
                some "CoinGecko"⟩)], some "2025-01-01T00:10:00Z"⟩).history
          = (append_history [] rows).2 :=
  run_update_partial_failure
    (FetchRes.mk [("BTC_USD", (2 : ℚ))]
      [("BTC_USD", FetchMeta.mk (some "2025-01-01T00:00:00Z")
        (some "CoinGecko"))])
    false tzParse ⟨[], ⟨[], none⟩⟩ "2025-01-01T00:10:00Z"
    (Summary.mk 0 1 1)
    (ParserState.mk
      [LEntry.record ⟨some "BTC_USD_2025-01-01T00:00:00Z", "BTC", "USD",
        2, "2025-01-01T00:00:00Z", "CoinGecko"⟩]
      ⟨[("BTC_USD", .record ⟨2, some "2025-01-01T00:00:00Z",
          some "CoinGecko"⟩),
        ("USD_BTC", .record ⟨1/2, some "2025-01-01T00:00:00Z",
          some "CoinGecko"⟩)], some "2025-01-01T00:10:00Z"⟩)
    rfl (by decide) (by decide)

/-! ## Rate resolver (`core/usecases.py`: `get_rate`) and currency registry
(`core/currencies.py`) -/

/-- The supported currency codes of `_REGISTRY` (currencies.py lines
68–74).  The registry's display metadata (names, issuing country,
algorithm, market cap) plays no role in rate resolution. -/
def registryKeys : List String := ["USD", "EUR", "RUB", "BTC", "ETH"]

/-- `(code or "").strip().upper()`: strip surrounding whitespace, uppercase
(implemented on the character list so it evaluates; ASCII-faithful). -/
def pyNorm (s : String) : String :=
  ⟨(((s.data.dropWhile Char.isWhitespace).reverse.dropWhile
      Char.isWhitespace).reverse).map Char.toUpper⟩

/-- `_default_rates_to_usd` (usecases.py lines 333–340), decimal literals
read exactly into `ℚ`. -/
def default_rates_to_usd : List (String × ℚ) :=
  [("USD", 1), ("EUR", 10786/10000), ("BTC", 5933721/100), ("ETH", 3720),
   ("RUB", 1016/100000)]

/-- The fallback derivation of `get_rate` (usecases.py lines 411–420):
`1/def[t]` when the source is USD, `def[f]` when the target is USD,
otherwise the USD bridge `def[f]/def[t]`; `none` models the
rate-unavailable `DomainError`. -/
def fallbackRate (f t : String) : Option ℚ :=
  if f = "USD" ∧ (dictGet default_rates_to_usd t).isSome then
    (dictGet default_rates_to_usd t).map (fun v => 1 / v)
  else if t = "USD" ∧ (dictGet default_rates_to_usd f).isSome then
    dictGet default_rates_to_usd f
  else
    match dictGet default_rates_to_usd f, dictGet default_rates_to_usd t with
    | some a, some b => some (a / b)
    | _, _ => none

/-- The rates cache document as `get_rate` reads it: the `"pairs"` section
when present as a dict, otherwise top-level (legacy) pair entries; plus the
top-level `"source"` and `"last_refresh"` fields. -/
structure RatesCache where
  pairsSection : Option (List (String × PairVal))
  flat : List (String × PairVal)
  source : Option String
  last_refresh : Option String
deriving DecidableEq, Repr

/-- The resolver's result `{"rate", "updated_at", "source"}`. -/
structure RateInfo where
  rate : ℚ
  updated_at : String
  source : String
deriving DecidableEq, Repr

/-- `get_rate` failure modes: `CurrencyNotFoundError`, the rate-unavailable
`DomainError`, and the uncaught `TypeError` from subtracting a naive parsed
timestamp from the aware `_now()`. -/
inductive GErr where
  | currencyNotFound
  | rateUnavailable
  | typeErr
deriving DecidableEq, Repr

/-- `_is_fresh(ts)` (usecases.py lines 392–399): falsy or unparsable
timestamps are not fresh (`ValueError` caught); a parsed naive timestamp
makes `_now() - updated` raise `TypeError` (uncaught, modelled `.error`);
an aware timestamp is fresh iff its age is within the TTL.  `parseIso`
stands for the bare `datetime.fromisoformat`. -/
def isFresh (parseIso : String → Option Dt) (ttl : ℤ) (now : ℕ)
    (ts : Option String) : Except Unit Bool :=
  match ts with
  | none => .ok false
  | some s =>
      if s = "" then .ok false
      else
        match parseIso s with
        | none => .ok false
        | some d =>
            if d.aware then .ok (decide ((now : ℤ) - d.t ≤ ttl))
            else .error ()

/-- `get_rate(frm, to)` (usecases.py lines 357–433) over an explicit cache
state and clock.  `fmtNow` stands for
`_now().replace(microsecond=0).isoformat()` (an offset-aware ISO string for
the instant `now`); `ttl` is `RATES_MAX_AGE_SECONDS` (default 300).
Returns the resolved rate and the possibly rewritten cache. -/
def get_rate (parseIso : String → Option Dt) (fmtNow : ℕ → String) (ttl : ℤ)
    (now : ℕ) (cache : RatesCache) (frm toc : String) :
    Except GErr (RateInfo × RatesCache) :=
  let f := pyNorm frm
  let t := pyNorm toc
  if f = "" ∨ t = "" then .error .currencyNotFound
  else if f ∉ registryKeys then .error .currencyNotFound
  else if t ∉ registryKeys then .error .currencyNotFound
  else if f = t then .ok (⟨1, fmtNow now, "local"⟩, cache)
  else
    let key := f ++ "_" ++ t
    let entry := match cache.pairsSection with
      | some ps => dictGet ps key
      | none => dictGet cache.flat key
    let freshHit : Except Unit (Option SnapRec) := match entry with
      | some (.record e) =>
          match isFresh parseIso ttl now e.updated_at with
          | .error u => .error u
          | .ok true => .ok (some e)
          | .ok false => .ok none
      | _ => .ok none
    match freshHit with
    | .error _ => .error .typeErr
    | .ok (some e) =>
        .ok (⟨e.rate, e.updated_at.getD "",
          e.source.getD (cache.source.getD "cache")⟩, cache)
    | .ok none =>
        match fallbackRate f t with
        | none => .error .rateUnavailable
        | some rate =>
            let ts := fmtNow now
            match cache.pairsSection with
            | some ps =>
                .ok (⟨rate, ts, "LocalStub"⟩,
                  { cache with
                    pairsSection := some (dictSet ps key
                      (.record ⟨rate, some ts, some "LocalStub"⟩)),
                    last_refresh := some ts })
            | none =>
                .ok (⟨rate, ts, "LocalStub"⟩,
                  { cache with
                    flat := dictSet cache.flat key (.record ⟨rate, some ts, none⟩),
                    source := some (cache.source.getD "LocalStub"),
                    last_refresh := some ts })

/-- No registry code is the empty string. -/
theorem registry_ne_empty : ∀ s ∈ registryKeys, s ≠ "" := by decide

/-- Every pair of registry codes has a fallback rate (the registry is a
subset of the fallback table's keys). -/
theorem fallback_total : ∀ f ∈ registryKeys, ∀ t ∈ registryKeys,
    (fallbackRate f t).isSome := by decide

/-- **C8**: same-currency resolution — for every supported code `X`,
`get_rate(X, X)` returns rate `1.0` with the current timestamp and source
`"local"`, for every cache state, and the cache is returned unchanged
(no write). -/
theorem same_currency_resolution (parseIso : String → Option Dt)
    (fmtNow : ℕ → String) (ttl : ℤ) (now : ℕ) (cache : RatesCache)
    (X : String) (hX : pyNorm X ∈ registryKeys) :
    get_rate parseIso fmtNow ttl now cache X X =
      .ok (⟨1, fmtNow now, "local"⟩, cache) := by
  have hne := registry_ne_empty _ hX
  unfold get_rate
  rw [if_neg (by simp [hne]), if_neg (not_not_intro hX),
    if_neg (not_not_intro hX), if_pos rfl]

/-- **C8** witness: `get_rate("USD", "USD")` over a cache that even holds a
(nonsensical) `USD_USD` entry still answers `1.0`/`"local"` and leaves the
cache alone. -/
theorem same_currency_resolution_witness :
    get_rate noParse (fun _ => "2025-06-01T00:00:00+00:00") 300 500
        ⟨some [("USD_USD", .record ⟨99, some "bad", some "S"⟩)], [], none, none⟩
        "USD" "USD" =
      .ok (⟨1, "2025-06-01T00:00:00+00:00", "local"⟩,
        ⟨some [("USD_USD", .record ⟨99, some "bad", some "S"⟩)], [], none,
          none⟩) :=
  same_currency_resolution noParse (fun _ => "2025-06-01T00:00:00+00:00")
    300 500 _ "USD" (by decide)

/-- **C9**: the rate-unavailable failure branch is unreachable for
registry-validated codes — every supported code has an entry in the fallback
table, so `get_rate` never returns the rate-unavailable `DomainError`, for
every cache state and clock. -/
theorem rate_unavailable_unreachable (parseIso : String → Option Dt)
    (fmtNow : ℕ → String) (ttl : ℤ) (now : ℕ) (cache : RatesCache)
    (frm toc : String)
    (hf : pyNorm frm ∈ registryKeys) (ht : pyNorm toc ∈ registryKeys) :
    get_rate parseIso fmtNow ttl now cache frm toc ≠ .error .rateUnavailable := by
  have hnef := registry_ne_empty _ hf
  have hnet := registry_ne_empty _ ht
  have hsome := fallback_total _ hf _ ht
  unfold get_rate
  rw [if_neg (by simp [hnef, hnet]), if_neg (not_not_intro hf),
    if_neg (not_not_intro ht)]
  by_cases heq : pyNorm frm = pyNorm toc
  · rw [if_pos heq]
    simp
  · rw [if_neg heq]
    cases hfb : fallbackRate (pyNorm frm) (pyNorm toc) with
    | none =>
        rw [hfb] at hsome
        simp at hsome
    | some q =>
        cases hps : cache.pairsSection with
        | some ps =>
            cases hget : dictGet ps (pyNorm frm ++ "_" ++ pyNorm toc) with
            | none => simp [hget]
            | some v =>
                cases v with
                | junk => simp [hget]
                | record e =>
                    cases hfr : isFresh parseIso ttl now e.updated_at with
                    | error u => simp [hget, hfr]
                    | ok b =>
                        cases b <;> simp [hget, hfr]
        | none =>
            cases hget : dictGet cache.flat (pyNorm frm ++ "_" ++ pyNorm toc) with
            | none => simp [hget]
            | some v =>
                cases v with
                | junk => simp [hget]
                | record e =>
                    cases hfr : isFresh parseIso ttl now e.updated_at with
                    | error u => simp [hget, hfr]
                    | ok b =>
                        cases b <;> simp [hget, hfr]

/-- **C9** witness: resolving `EUR → RUB` over an empty cache does not
fail with the rate-unavailable error. -/
theorem rate_unavailable_unreachable_witness :
    get_rate noParse (fun _ => "2025-06-01T00:00:00+00:00") 300 0
        ⟨none, [], none, none⟩ "EUR" "RUB" ≠ .error .rateUnavailable :=
  rate_unavailable_unreachable noParse (fun _ => "2025-06-01T00:00:00+00:00")
    300 0 ⟨none, [], none, none⟩ "EUR" "RUB" (by decide) (by decide)

/-- **C4**: TTL-bounded resolution.  For supported codes `A ≠ B` whose
cached `A_B` record carries an (aware-parsing) `updated_at` older than the
TTL, `get_rate` does not return the stale cached record: it returns the
fallback-derived rate (USD-direct or USD-bridged, per `fallbackRate`) under
a fresh timestamp and the `"LocalStub"` source marker, writes that record
back into the snapshot's pairs section leaving every other key untouched,
and a repeated lookup within the TTL window is a cache hit returning the
same record without any further write. -/
theorem ttl_expiry_uses_fallback (parseIso : String → Option Dt)
    (fmtNow : ℕ → String) (ttl : ℤ) (now : ℕ) (cache : RatesCache)
    (frm toc : String) (ps : List (String × PairVal)) (e : SnapRec)
    (s : String) (u : ℕ) (q : ℚ)
    (hf : pyNorm frm ∈ registryKeys) (ht : pyNorm toc ∈ registryKeys)
    (hne : pyNorm frm ≠ pyNorm toc)
    (hps : cache.pairsSection = some ps)
    (hentry : dictGet ps (pyNorm frm ++ "_" ++ pyNorm toc) = some (.record e))
    (hts : e.updated_at = some s)
    (hparse : parseIso s = some ⟨true, u⟩)
    (hstale : ttl < (now : ℤ) - u)
    (hq : fallbackRate (pyNorm frm) (pyNorm toc) = some q)
    (hfmtne : fmtNow now ≠ "") :
    get_rate parseIso fmtNow ttl now cache frm toc =
      .ok (⟨q, fmtNow now, "LocalStub"⟩,
        { cache with
          pairsSection := some (dictSet ps (pyNorm frm ++ "_" ++ pyNorm toc)
            (.record ⟨q, some (fmtNow now), some "LocalStub"⟩)),
          last_refresh := some (fmtNow now) })
    ∧ (∀ k, k ≠ pyNorm frm ++ "_" ++ pyNorm toc →
        dictGet (dictSet ps (pyNorm frm ++ "_" ++ pyNorm toc)
          (.record ⟨q, some (fmtNow now), some "LocalStub"⟩)) k = dictGet ps k)
    ∧ (∀ now2 : ℕ, parseIso (fmtNow now) = some ⟨true, now⟩ →
        (now2 : ℤ) - now ≤ ttl →
        get_rate parseIso fmtNow ttl now2
          { cache with
            pairsSection := some (dictSet ps (pyNorm frm ++ "_" ++ pyNorm toc)
              (.record ⟨q, some (fmtNow now), some "LocalStub"⟩)),
            last_refresh := some (fmtNow now) } frm toc =
          .ok (⟨q, fmtNow now, "LocalStub"⟩,
            { cache with
              pairsSection := some (dictSet ps (pyNorm frm ++ "_" ++ pyNorm toc)
                (.record ⟨q, some (fmtNow now), some "LocalStub"⟩)),
              last_refresh := some (fmtNow now) })) := by
  have hnef := registry_ne_empty _ hf
  have hnet := registry_ne_empty _ ht
  have hfresh : isFresh parseIso ttl now e.updated_at = .ok false := by
    rw [hts]
    unfold isFresh
    dsimp only
    by_cases hs : s = ""
    · rw [if_pos hs]
    · rw [if_neg hs, hparse]
      dsimp only
      rw [if_pos rfl, decide_eq_false (not_le.mpr hstale)]
  refine ⟨?_, ?_, ?_⟩
  · unfold get_rate
    rw [if_neg (by simp [hnef, hnet]), if_neg (not_not_intro hf),
      if_neg (not_not_intro ht), if_neg hne, hps]
    dsimp only
    rw [hentry]
    dsimp only
    rw [hfresh]
    dsimp only
    rw [hq]
  · intro k hk
    exact dictGet_dictSet_ne ps _ k _ hk
  · intro now2 hiso hwithin
    have hfr2 : isFresh parseIso ttl now2 (some (fmtNow now)) = .ok true := by
      unfold isFresh
      dsimp only
      rw [if_neg hfmtne, hiso]
      dsimp only
      rw [if_pos rfl, decide_eq_true hwithin]
    unfold get_rate
    rw [if_neg (by simp [hnef, hnet]), if_neg (not_not_intro hf),
      if_neg (not_not_intro ht), if_neg hne]
    have hps2 : ({ cache with
        pairsSection := some (dictSet ps (pyNorm frm ++ "_" ++ pyNorm toc)
          (.record ⟨q, some (fmtNow now), some "LocalStub"⟩)),
        last_refresh := some (fmtNow now) } : RatesCache).pairsSection =
        some (dictSet ps (pyNorm frm ++ "_" ++ pyNorm toc)
          (.record ⟨q, some (fmtNow now), some "LocalStub"⟩)) := rfl
    rw [hps2]
    dsimp only
    rw [dictGet_dictSet_self]
    dsimp only
    rw [hfr2]
    rfl

/-- A parse table standing for the resolver-side `datetime.fromisoformat`
on the concrete aware ISO strings used by the C4 witness. -/
def rzParse : String → Option Dt := fun s =>
  if s = "2025-01-01T00:00:00+00:00" then some ⟨true, 1000⟩
  else if s = "2025-01-01T00:20:00+00:00" then some ⟨true, 2200⟩
  else none

/-- A formatter standing for `_now().replace(microsecond=0).isoformat()`
at the instants used by the C4 witness. -/
def fmtW4 : ℕ → String := fun n =>
  if n = 2200 then "2025-01-01T00:20:00+00:00" else "t"

/-- **C4** witness: a 1200-second-old cached `EUR_USD` record (TTL 300) is
not returned; the resolver answers the fallback value
`def_rates["EUR"] = 1.0786` with a fresh timestamp and source
`"LocalStub"`, rewrites the cache, and a lookup 100 seconds later hits the
rewritten cache and returns the same record with the cache unchanged. -/
theorem ttl_expiry_uses_fallback_witness :
    get_rate rzParse fmtW4 300 2200
        ⟨some [("EUR_USD", .record ⟨9/10, some "2025-01-01T00:00:00+00:00",
          some "P"⟩)], [], none, none⟩ "EUR" "USD" =
      .ok (⟨10786/10000, "2025-01-01T00:20:00+00:00", "LocalStub"⟩,
        ⟨some [("EUR_USD", .record ⟨10786/10000,
            some "2025-01-01T00:20:00+00:00", some "LocalStub"⟩)], [], none,
          some "2025-01-01T00:20:00+00:00"⟩)
    ∧ get_rate rzParse fmtW4 300 2300
        ⟨some [("EUR_USD", .record ⟨10786/10000,
            some "2025-01-01T00:20:00+00:00", some "LocalStub"⟩)], [], none,
          some "2025-01-01T00:20:00+00:00"⟩ "EUR" "USD" =
      .ok (⟨10786/10000, "2025-01-01T00:20:00+00:00", "LocalStub"⟩,
        ⟨some [("EUR_USD", .record ⟨10786/10000,
            some "2025-01-01T00:20:00+00:00", some "LocalStub"⟩)], [], none,
          some "2025-01-01T00:20:00+00:00"⟩) := by
  have h := ttl_expiry_uses_fallback rzParse fmtW4 300 2200
    ⟨some [("EUR_USD", .record ⟨9/10, some "2025-01-01T00:00:00+00:00",
      some "P"⟩)], [], none, none⟩ "EUR" "USD"
    [("EUR_USD", .record ⟨9/10, some "2025-01-01T00:00:00+00:00", some "P"⟩)]
    ⟨9/10, some "2025-01-01T00:00:00+00:00", some "P"⟩
    "2025-01-01T00:00:00+00:00" 1000 (10786/10000)
    (by decide) (by decide) (by decide) rfl rfl rfl rfl
    (by decide) rfl (by decide)
  exact ⟨h.1, h.2.2 2300 (by decide) (by decide)⟩

end VTH
